import Mathlib

/-!
Shallow embedding of the runtime type-validation engine of
`src/lib/stop-watch.js` (`getType`, `describe`, `checkType`, `ensureType`,
`ensureItemType`, `ensureArguments`, `ensureNonEmpty`, and the `Enum` base
class), together with proofs about the claims of the specification.

Modelling conventions:
* JavaScript values are the inductive `JSValue`.  Machine floats are not
  needed by any claim, so `number` carries an `Int` and the distinguished
  `NaN` value is its own constructor (the source's `getType` classifies it
  separately anyway).  `symbol` and `function` values carry an opaque id.
  Enum constants and constructed class instances (such as `Date`) are
  `enumConst` and `inst`; both have runtime type tag `object`.
* In-place mutation of objects and arrays (the source's
  `value[key] = result.value` and `array[index] = result.value`) is modelled
  by returning the updated structure; object identity is therefore modelled
  as content equality.
* A thrown `ValidationError` is `CheckResult.err msg`; a thrown `TypeError`
  or other engine error (e.g. reading `name[0]` of `undefined` in
  `describe`) is `CheckResult.crash`.
* `String.prototype.toUpperCase`/`toLowerCase` are modelled on the basic
  latin range, which is all the claims exercise; `JSON.stringify` is
  modelled without escape sequences, which agrees with the source for the
  values appearing in the claims.
-/

/-- The Runtime Type Tag (`getType`'s result): the value's classification. -/
inductive TypeTag where
  | undef
  | null
  | boolean
  | number
  | nan
  | bigint
  | string
  | symbol
  | function
  | object
  | array
deriving DecidableEq, Repr

/-- The ten primitive type descriptors accepted by `checkType`'s built-in
branch: `undefined`, `null`, `Boolean`, `Number`, `BigInt`, `String`,
`Symbol`, `Function`, `Object`, `Array`.  (`NaN` is not among them: the
source's `===` comparison can never match the descriptor `NaN`.) -/
inductive PrimType where
  | undef
  | null
  | boolean
  | number
  | bigint
  | string
  | symbol
  | function
  | object
  | array
deriving DecidableEq, Repr

/-- The tag a primitive descriptor matches against (the source compares the
descriptor itself with `getType`'s result using `===`). -/
def PrimType.toTag : PrimType → TypeTag
  | .undef => .undef
  | .null => .null
  | .boolean => .boolean
  | .number => .number
  | .bigint => .bigint
  | .string => .string
  | .symbol => .symbol
  | .function => .function
  | .object => .object
  | .array => .array

/-- A JavaScript value. -/
inductive JSValue where
  | undef
  | null
  | boolean (b : Bool)
  | number (n : Int)
  | nan
  | bigint (n : Int)
  | string (s : String)
  | symbol (id : Nat)
  | function (id : Nat)
  | object (fields : List (String × JSValue))
  | array (items : List JSValue)
  | enumConst (enumName : String) (name : String) (ordinal : Int)
  | inst (ctorName : String) (stringForm : String)

/-- `getType` from the source: `null` first, then `Array.isArray`, then
`Number.isNaN`, then the `typeof` switch.  Enum constants and class
instances are `typeof ... === 'object'`. -/
def getType : JSValue → TypeTag
  | .null => .null
  | .array _ => .array
  | .nan => .nan
  | .undef => .undef
  | .boolean _ => .boolean
  | .number _ => .number
  | .bigint _ => .bigint
  | .string _ => .string
  | .symbol _ => .symbol
  | .function _ => .function
  | .object _ => .object
  | .enumConst _ _ _ => .object
  | .inst _ _ => .object

/-- `String.prototype.toUpperCase` on one character (basic latin range). -/
def jsUpperChar (c : Char) : Char :=
  if 97 ≤ c.toNat ∧ c.toNat ≤ 122 then Char.ofNat (c.toNat - 32) else c

/-- `String.prototype.toLowerCase` on one character (basic latin range). -/
def jsLowerChar (c : Char) : Char :=
  if 65 ≤ c.toNat ∧ c.toNat ≤ 90 then Char.ofNat (c.toNat + 32) else c

/-- `String.prototype.toUpperCase` (basic latin range). -/
def jsToUpperCase (s : String) : String := ⟨s.data.map jsUpperChar⟩

/-- `String.prototype.toLowerCase` (basic latin range). -/
def jsToLowerCase (s : String) : String := ⟨s.data.map jsLowerChar⟩

/-- `String.prototype.startsWith` on character lists. -/
def listStartsWith : List Char → List Char → Bool
  | _, [] => true
  | [], _ :: _ => false
  | c :: cs, p :: ps => c == p && listStartsWith cs ps

/-- `String.prototype.startsWith`. -/
def strStartsWith (s pre : String) : Bool := listStartsWith s.data pre.data

/-- `Array.prototype.join` with a separator. -/
def joinWith (sep : String) : List String → String
  | [] => ""
  | [s] => s
  | s :: rest => s ++ sep ++ joinWith sep rest

mutual
/-- JavaScript `String(value)` conversion.  Enum constants stringify to
their name (the source's `Enum.toString`); class instances carry their
string form (e.g. `"Invalid Date"`). -/
def jsToString : JSValue → String
  | .undef => "undefined"
  | .null => "null"
  | .boolean b => if b then "true" else "false"
  | .number n => toString n
  | .nan => "NaN"
  | .bigint n => toString n
  | .string s => s
  | .symbol _ => "Symbol()"
  | .function _ => "function"
  | .object _ => "[object Object]"
  | .array items => jsItemsToString items
  | .enumConst _ n _ => n
  | .inst _ s => s

/-- `Array.prototype.toString`: elements joined with commas. -/
def jsItemsToString : List JSValue → String
  | [] => ""
  | [v] => jsToString v
  | v :: rest => jsToString v ++ "," ++ jsItemsToString rest
end

/-- JSON string quoting (escape sequences elided; the claims use values
without quotes or backslashes). -/
def quoteJson (s : String) : String := "\"" ++ s ++ "\""

mutual
/-- `JSON.stringify`.  `undefined`, functions and symbols stringify to the
text `"undefined"` once interpolated into the message template; `NaN`
serializes as `null`; enum constants use `Enum.toJSON` (their name);
class instances approximate their `toJSON`. -/
def jsonStringify : JSValue → String
  | .undef => "undefined"
  | .null => "null"
  | .boolean b => if b then "true" else "false"
  | .number n => toString n
  | .nan => "null"
  | .bigint n => toString n
  | .string s => quoteJson s
  | .symbol _ => "undefined"
  | .function _ => "undefined"
  | .object fields => "\x7b" ++ jsonFields fields ++ "\x7d"
  | .array items => "[" ++ jsonItems items ++ "]"
  | .enumConst _ n _ => quoteJson n
  | .inst _ s => quoteJson s

/-- JSON serialization of an object's fields. -/
def jsonFields : List (String × JSValue) → String
  | [] => ""
  | [(k, v)] => quoteJson k ++ ":" ++ jsonStringify v
  | (k, v) :: rest => quoteJson k ++ ":" ++ jsonStringify v ++ "," ++ jsonFields rest

/-- JSON serialization of an array's items. -/
def jsonItems : List JSValue → String
  | [] => ""
  | [v] => jsonStringify v
  | v :: rest => jsonStringify v ++ "," ++ jsonItems rest
end

/-- Property read `value[key]`.  Missing properties read as `undefined`.
Enum constants expose their own `name`/`ordinal` properties. -/
def JSValue.getField (v : JSValue) (key : String) : JSValue :=
  match v with
  | .object fields =>
      match fields.find? (fun p => p.1 == key) with
      | some p => p.2
      | none => .undef
  | .enumConst _ n o =>
      if key == "name" then .string n
      else if key == "ordinal" then .number o
      else .undef
  | _ => JSValue.undef -- any other receiver: no own properties modelled

/-- Property write on an object's field list: an existing key keeps its
position, a new key is appended (JavaScript property insertion order). -/
def setEntry : List (String × JSValue) → String → JSValue → List (String × JSValue)
  | [], key, x => [(key, x)]
  | (k, old) :: rest, key, x =>
      if k == key then (key, x) :: rest else (k, old) :: setEntry rest key x

/-- Property write `value[key] = x`, modelled functionally.  Writes to
non-plain objects (enum constants, class instances) are dropped: no claim
exercises them and both occurrences below use the same model. -/
def JSValue.setField (v : JSValue) (key : String) (x : JSValue) : JSValue :=
  match v with
  | .object fields => .object (setEntry fields key x)
  | other => other

/-- Whether the value is a plain object literal. -/
def isObjVariant : JSValue → Bool
  | .object _ => true
  | _ => false

/-- Whether `value` has an own property `key`. -/
def hasEntry (v : JSValue) (key : String) : Bool :=
  match v with
  | .object fields => fields.any (fun p => p.1 == key)
  | _ => false

/-- JavaScript `.length` for strings and arrays (only read under the
corresponding tag guard in the source). -/
def jsLength : JSValue → Nat
  | .string s => s.length
  | .array items => items.length
  | _ => 0

/-- `Object.keys`: own enumerable property names.  Enum constants have
`name` and `ordinal`; class instances such as dates have none. -/
def jsKeys : JSValue → List String
  | .object fields => fields.map Prod.fst
  | .enumConst _ _ _ => ["name", "ordinal"]
  | _ => []

/-- One constant of an `Enum` subclass: a name and an ordinal. -/
structure EnumConstant where
  name : String
  ordinal : Int
deriving DecidableEq, Repr

/-- An `Enum` subclass: its class name and its constants in declaration
order (`Enum.values`). -/
structure EnumType where
  name : String
  constants : List EnumConstant
deriving DecidableEq, Repr

/-- A coercible constructor descriptor: the class name, the `instanceof`
test and the behaviour of `new C(value)` (assumed non-throwing, as for
`Date`). -/
structure CtorSpec where
  name : String
  isInstance : JSValue → Bool
  construct : JSValue → JSValue

/-- A type descriptor, the `expectedType` grammar of the source:
primitive constants, `Enum` subclasses, other constructors, arrays of
descriptors (unions), and plain objects mapping field names to descriptors
(structs).  The source dispatches on the descriptor's runtime shape, in
this order; the variants here are disjoint by construction. -/
inductive Descriptor where
  | prim (t : PrimType)
  | enum (e : EnumType)
  | ctor (c : CtorSpec)
  | union (members : List Descriptor)
  | struct (fields : List (String × Descriptor))

/-- The article rule of `describe`: prefix `"a "`/`"an "` according to the
first letter (lower-cased) being a vowel.  In the source an empty name
would crash on `name[0]`; class names are never empty. -/
def withArticle (name : String) : String :=
  match name.data with
  | [] => name
  | c :: _ =>
      (if ("aeiou").data.contains (jsLowerChar c) then "an " else "a ") ++ name

/-- The noun `describe` uses for each runtime tag / primitive descriptor. -/
def TypeTag.noun : TypeTag → String
  | .undef => "undefined"
  | .null => "null"
  | .nan => "NaN"
  | .boolean => "boolean"
  | .number => "number"
  | .bigint => "bigint"
  | .string => "string"
  | .symbol => "symbol"
  | .function => "function"
  | .object => "object"
  | .array => "array"

/-- `describe` on a runtime tag or primitive descriptor.  `null`,
`undefined` and `NaN` never take an article. -/
def describeTag (t : TypeTag) (articles : Bool) : String :=
  match t with
  | .null => "null"
  | .undef => "undefined"
  | .nan => "NaN"
  | t => if articles then withArticle t.noun else t.noun

/-- `describe`'s list-joining rule: up to two items joined with `" or "`,
three or more Oxford-comma style. -/
def joinDescriptions (types : List String) : String :=
  if types.length ≤ 2 then joinWith (" or ") types
  else joinWith (", ") types.dropLast ++ ", or " ++ types.getLastD ""

mutual
/-- `describe` on a descriptor.  A struct descriptor has no `name`
property, so with articles requested the source crashes reading
`name[0]` of `undefined`: that is `none`. -/
def describeDesc (d : Descriptor) (articles : Bool) : Option String :=
  match d with
  | .prim t => some (describeTag t.toTag articles)
  | .enum e => some (if articles then withArticle e.name else e.name)
  | .ctor c => some (if articles then withArticle c.name else c.name)
  | .union members =>
      match describeMembers members articles with
      | some ds => some (joinDescriptions ds)
      | none => none
  | .struct _ => none

/-- `describe` mapped over a union's members. -/
def describeMembers (ms : List Descriptor) (articles : Bool) : Option (List String) :=
  match ms with
  | [] => some []
  | m :: rest =>
      match describeDesc m articles, describeMembers rest articles with
      | some s, some ss => some (s :: ss)
      | _, _ => none
end

/-- `checkType`'s result: `{ value }`, `{ error }`, or an engine-level
exception (`TypeError`) escaping the validator. -/
inductive CheckResult where
  | ok (value : JSValue)
  | err (message : String)
  | crash

/-- The built-in branch of `checkType`: success iff the value's tag equals
the primitive descriptor. -/
def checkPrim (value : JSValue) (t : PrimType) (name : String) : CheckResult :=
  if getType value = t.toTag then .ok value
  else
    .err ("The " ++ name ++ " must be " ++ describeTag t.toTag true
      ++ ", but it was " ++ describeTag (getType value) true ++ ".")

/-- The enum branch of `checkType`: `expectedType.valueOf(String(value)
.toUpperCase())`, where `Enum.valueOf` finds the first constant whose
`name` equals the argument and throws otherwise. -/
def checkEnum (value : JSValue) (e : EnumType) (name : String) : CheckResult :=
  match e.constants.find? (fun c => c.name == jsToUpperCase (jsToString value)) with
  | some c => .ok (.enumConst e.name c.name c.ordinal)
  | none =>
      .err ("The " ++ name ++ " must be " ++ withArticle e.name
        ++ ", but it was " ++ describeTag (getType value) true ++ ".")

/-- The constructor branch of `checkType`: accept instances as-is, else
construct from the raw value and reject when the instance's string form
starts (case-insensitively) with `"invalid"`; the raw value's JSON is
appended to the message unless the value's tag is `null`/`undefined`
(the source's loose `valueType != null`). -/
def checkCtor (value : JSValue) (c : CtorSpec) (name : String) : CheckResult :=
  if c.isInstance value then .ok value
  else
    let converted := c.construct value
    if strStartsWith (jsToLowerCase (jsToString converted)) ("invalid") then
      .err ("The " ++ name ++ " must be a valid " ++ c.name ++ ", but it was "
        ++ describeTag (getType value) true
        ++ (if getType value = TypeTag.null ∨ getType value = TypeTag.undef then ""
            else ": " ++ jsonStringify value)
        ++ ".")
    else .ok converted

mutual
/-- `checkType(value, expectedType, { name })`.  Dispatch follows the
source's order; the struct branch first re-checks the value against the
`Object` descriptor (inlined `checkPrim`, the same computation). -/
def checkType (value : JSValue) (expectedType : Descriptor) (name : String) : CheckResult :=
  match expectedType with
  | .prim t => checkPrim value t name
  | .enum e => checkEnum value e name
  | .ctor c => checkCtor value c name
  | .union members =>
      match tryUnionMembers value members name with
      | some r => r
      | none =>
          match describeDesc (.union members) true with
          | some d =>
              .err ("The " ++ name ++ " must be " ++ d ++ ", but it was "
                ++ describeTag (getType value) true ++ ".")
          | none => .crash
  | .struct fields =>
      match checkPrim value .object name with
      | .err e => .err e
      | _ => checkFields value fields name

/-- The union loop: try each member with the same name; on the first
success return `{ value }` — the original argument, not the member's
coerced result. -/
def tryUnionMembers (value : JSValue) (members : List Descriptor) (name : String) : Option CheckResult :=
  match members with
  | [] => none
  | m :: rest =>
      match checkType value m name with
      | .ok _ => some (.ok value)
      | .crash => some (.crash)
      | .err _ => tryUnionMembers value rest name

/-- The struct loop: check each descriptor field against `value[key]`
under the qualified name, write the coerced result back, abort on the
first error. -/
def checkFields (value : JSValue) (fields : List (String × Descriptor)) (name : String) : CheckResult :=
  match fields with
  | [] => .ok value
  | (key, d) :: rest =>
      match checkType (value.getField key) d (name ++ "." ++ key) with
      | .err e => .err e
      | .crash => .crash
      | .ok coerced => checkFields (value.setField key coerced) rest name
end

/-- `ensureType`: throw the check's error as a `ValidationError`, else
return the (possibly coerced) value. -/
def ensureType (value : JSValue) (expectedType : Descriptor) (name : String := "value") : CheckResult :=
  checkType value expectedType name

/-- The `forEach` loop of `ensureItemType`, rewriting each element to its
coerced value under the per-element name `{name}.{index}`. -/
def ensureItems (items : List JSValue) (expectedType : Descriptor) (name : String) (index : Nat) : CheckResult :=
  match items with
  | [] => .ok (.array [])
  | item :: rest =>
      match checkType item expectedType (name ++ "." ++ toString index) with
      | .err e => .err e
      | .crash => .crash
      | .ok c =>
          match ensureItems rest expectedType name (index + 1) with
          | .ok (.array cs) => .ok (.array (c :: cs))
          | other => other

/-- `ensureItemType`: first check the array itself against the `Array`
descriptor, then each element.  The fall-through arm is unreachable: a
value of tag `array` is an array. -/
def ensureItemType (arr : JSValue) (expectedType : Descriptor) (name : String := "value") : CheckResult :=
  match checkType arr (.prim .array) name with
  | .err e => .err e
  | _ =>
      match arr with
      | .array items => ensureItems items expectedType name 0
      | _ => .crash

/-- The display name for argument `index`: `names[index]` when truthy
(present and non-empty), else `"argument #{index+1}"`. -/
def argumentName (names : List String) (index : Nat) : String :=
  match names.getD index "" with
  | "" => "argument #" ++ toString (index + 1)
  | s => s

/-- The `forEach` loop of `ensureArguments`: check `args[index]` (missing
arguments read as `undefined`) against each descriptor in order. -/
def checkArguments (args : List JSValue) (expectedTypes : List Descriptor) (names : List String) (index : Nat) : CheckResult :=
  match expectedTypes with
  | [] => .ok .undef
  | t :: rest =>
      match checkType (args.getD index .undef) t (argumentName names index) with
      | .err e => .err e
      | .crash => .crash
      | .ok _ => checkArguments args rest names (index + 1)

/-- `ensureArguments(args, expectedTypes, names)`.  The two leading
`ensureThat` array checks always pass here since the parameters are typed
lists. -/
def ensureArguments (args : List JSValue) (expectedTypes : List Descriptor := []) (names : List String := []) : CheckResult :=
  if args.length > expectedTypes.length then
    .err ("Too many arguments: expected " ++ toString expectedTypes.length
      ++ ", but got " ++ toString args.length ++ ".")
  else checkArguments args expectedTypes names 0

/-- `ensureNonEmpty`: reject empty strings, arrays and objects (by tag),
pass everything else through. -/
def ensureNonEmpty (value : JSValue) (name : String := "value") : CheckResult :=
  if (getType value = TypeTag.string ∧ jsLength value = 0)
      ∨ (getType value = TypeTag.array ∧ jsLength value = 0)
      ∨ (getType value = TypeTag.object ∧ (jsKeys value).length = 0) then
    .err ("The " ++ name ++ " must not be empty, but it was "
      ++ jsonStringify value ++ ".")
  else .ok value

/-- Modelled from the spec: the ECMAScript `Date` host constructor as used
by the spec's coercible-constructor examples — the epoch default for
`null`, a date instance for the example parseable string, a copy for an
existing date, and a `"Invalid Date"` string form for unparseable input
such as `'no-date'`. -/
def dateConstruct : JSValue → JSValue
  | .null => .inst ("Date") ("Thu Jan 01 1970 00:00:00")
  | .number n => .inst ("Date") ("Date at " ++ toString n ++ " ms")
  | .string ("2024-08-23T20:01") => .inst ("Date") ("Fri Aug 23 2024 20:01:00")
  | .inst ("Date") s => .inst ("Date") s
  | _ => .inst ("Date") ("Invalid Date")

/-- Modelled from the spec: the `Date` coercible-constructor descriptor. -/
def dateCtor : CtorSpec where
  name := "Date"
  isInstance := fun v =>
    match v with
    | .inst ("Date") _ => true
    | _ => false
  construct := dateConstruct

/-- `new Date(null)`: the epoch date. -/
def epochDate : JSValue := .inst ("Date") ("Thu Jan 01 1970 00:00:00")

/-- Transcribed from the spec's struct rule: for each field in the
descriptor, recursively check `value[field]` against `descriptor[field]`
using the qualified name `"{name}.{field}"`; the first failing field
short-circuits and its error propagates verbatim; each successfully
checked field's value is replaced in place by its result; the object is
returned on full success. -/
def structSpecFields (value : JSValue) (fields : List (String × Descriptor)) (name : String) : CheckResult :=
  match fields with
  | [] => .ok value
  | (field, d) :: rest =>
      match checkType (value.getField field) d (name ++ "." ++ field) with
      | .err e => .err e
      | .crash => .crash
      | .ok r => structSpecFields (value.setField field r) rest name

/-- Transcribed from the spec's array-item rule: ensure every element
matches the item descriptor using `"{name}.{index}"` as the per-element
name, rewriting each element in place to its coerced value; the first
failing element aborts with its own message. -/
def itemsSpec (items : List JSValue) (d : Descriptor) (name : String) (index : Nat) : CheckResult :=
  match items with
  | [] => .ok (.array [])
  | item :: rest =>
      match checkType item d (name ++ "." ++ toString index) with
      | .err e => .err e
      | .crash => .crash
      | .ok c =>
          match itemsSpec rest d name (index + 1) with
          | .ok (.array cs) => .ok (.array (c :: cs))
          | other => other

/-- Well-formedness of a descriptor, reflecting what the descriptor
grammar guarantees in JavaScript: constructors produce instances of
themselves (`new C(v) instanceof C`), and a struct descriptor — a plain
object — has distinct field names. -/
inductive Descriptor.WF : Descriptor → Prop where
  | prim (t : PrimType) : Descriptor.WF (.prim t)
  | enum (e : EnumType) : Descriptor.WF (.enum e)
  | ctor (c : CtorSpec) (h : ∀ v, c.isInstance (c.construct v) = true) :
      Descriptor.WF (.ctor c)
  | union (ms : List Descriptor) : Descriptor.WF (.union ms)
  | struct (fields : List (String × Descriptor))
      (hnd : (fields.map Prod.fst).Nodup)
      (hf : ∀ p ∈ fields, Descriptor.WF p.2) :
      Descriptor.WF (.struct fields)

/-- The enum of the correction to C3: a constant whose declared name is
not all-uppercase. -/
def orientationEnum : EnumType where
  name := "Orientation"
  constants := [⟨"Ok", 0⟩]

/-- The enum of the spec's own example, `YesNo{YES=0, NO=1}`. -/
def yesNoEnum : EnumType where
  name := "YesNo"
  constants := [⟨"YES", 0⟩, ⟨"NO", 1⟩]

/-! ## Claim C1: primitive descriptors -/

/-- Claim C1: for every primitive descriptor T and every value v,
`ensureType(v, T)` succeeds and returns v unchanged iff the Runtime Type
Tag of v equals T; on failure it throws a validation error whose message
is exactly "The {name} must be {a/an descriptor}, but it was {a/an tag}.",
with the name defaulting to "value" (shown by the NaN/number conjunct,
which also shows NaN's tag is distinct from number). -/
theorem ensureType_prim_characterization :
    ∀ (t : PrimType) (v : JSValue) (n : String),
      (ensureType v (.prim t) n = .ok v ↔ getType v = t.toTag) ∧
      (getType v ≠ t.toTag →
        ensureType v (.prim t) n =
          .err ("The " ++ n ++ " must be " ++ describeTag t.toTag true
            ++ ", but it was " ++ describeTag (getType v) true ++ ".")) ∧
      ensureType .nan (.prim .number)
        = .err ("The value must be a number, but it was NaN.") := by
  intro t v n
  by_cases h : getType v = t.toTag
  · exact ⟨⟨fun _ => h, fun _ => by simp [ensureType, checkType, checkPrim, h]⟩,
      fun hc => absurd h hc, rfl⟩
  · refine ⟨⟨fun he => ?_, fun hg => absurd hg h⟩,
      fun _ => by simp [ensureType, checkType, checkPrim, h], rfl⟩
    simp [ensureType, checkType, checkPrim, h] at he

/-- Witness for C1, at descriptor `String` and value `123`. -/
theorem ensureType_prim_characterization_witness :
    getType (.number 123) ≠ PrimType.string.toTag ∧
    ensureType (.number 123) (.prim .string) ("value")
      = .err ("The value must be a string, but it was a number.") :=
  ⟨by decide,
    (ensureType_prim_characterization .string (.number 123) ("value")).2.1 (by decide)⟩

/-! ## Claim C9: ensureNonEmpty -/

/-- Claim C9: `ensureNonEmpty` throws iff the value's Runtime Type Tag is
string, array, or object with zero length / zero keys, embedding the JSON
serialization of the empty value in the message; every other value is
returned unchanged.  The closed conjuncts are the spec's examples. -/
theorem ensureNonEmpty_characterization :
    ∀ (v : JSValue) (n : String),
      (ensureNonEmpty v n = .ok v ↔
        ¬((getType v = TypeTag.string ∧ jsLength v = 0)
          ∨ (getType v = TypeTag.array ∧ jsLength v = 0)
          ∨ (getType v = TypeTag.object ∧ (jsKeys v).length = 0))) ∧
      (((getType v = TypeTag.string ∧ jsLength v = 0)
          ∨ (getType v = TypeTag.array ∧ jsLength v = 0)
          ∨ (getType v = TypeTag.object ∧ (jsKeys v).length = 0)) →
        ensureNonEmpty v n =
          .err ("The " ++ n ++ " must not be empty, but it was "
            ++ jsonStringify v ++ ".")) ∧
      ensureNonEmpty (.string ("")) = .err ("The value must not be empty, but it was \"\".") ∧
      ensureNonEmpty (.array []) = .err ("The value must not be empty, but it was [].") ∧
      ensureNonEmpty (.object []) = .err ("The value must not be empty, but it was \x7b\x7d.") ∧
      ensureNonEmpty (.string ("John")) = .ok (.string ("John")) := by
  intro v n
  by_cases h : (getType v = TypeTag.string ∧ jsLength v = 0)
      ∨ (getType v = TypeTag.array ∧ jsLength v = 0)
      ∨ (getType v = TypeTag.object ∧ (jsKeys v).length = 0)
  · refine ⟨?_, fun _ => by simp only [ensureNonEmpty, if_pos h], rfl, rfl, rfl, rfl⟩
    simp only [ensureNonEmpty, if_pos h]
    exact iff_of_false (by simp) (not_not_intro h)
  · refine ⟨?_, fun hc => absurd hc h, rfl, rfl, rfl, rfl⟩
    simp only [ensureNonEmpty, if_neg h]
    exact iff_of_true trivial h

/-- Witness for C9, at the empty array. -/
theorem ensureNonEmpty_characterization_witness :
    ((getType (.array []) = TypeTag.string ∧ jsLength (.array []) = 0)
      ∨ (getType (.array []) = TypeTag.array ∧ jsLength (.array []) = 0)
      ∨ (getType (.array []) = TypeTag.object ∧ (jsKeys (.array [])).length = 0)) ∧
    ensureNonEmpty (.array []) ("value")
      = .err ("The value must not be empty, but it was [].") :=
  ⟨by decide,
    (ensureNonEmpty_characterization (.array []) ("value")).2.1 (by decide)⟩

/-! ## Claim C5: struct descriptors -/

/-- The struct loop of `checkType` coincides with the spec's transcription
of the struct rule. -/
theorem checkFields_eq_structSpecFields :
    ∀ (fields : List (String × Descriptor)) (v : JSValue) (n : String),
      checkFields v fields n = structSpecFields v fields n := by
  intro fields
  induction fields with
  | nil => intro v n; rfl
  | cons p rest ih =>
      intro v n
      obtain ⟨key, d⟩ := p
      cases h : checkType (v.getField key) d (n ++ "." ++ key) with
      | ok c => simp only [checkFields, structSpecFields, h]; exact ih _ _
      | err e => simp only [checkFields, structSpecFields, h]
      | crash => simp only [checkFields, structSpecFields, h]

/-- Claim C5: checking a value against a struct descriptor fails with the
object-type message when the value's tag is not object, and otherwise
checks each field recursively against `value[field]` under the qualified
name `{name}.{field}`, short-circuiting at the first failing field with
its error verbatim and rewriting each checked field in place, returning
the object on full success (the spec-transcribed `structSpecFields`). -/
theorem struct_check_matches_spec :
    ∀ (v : JSValue) (S : List (String × Descriptor)) (n : String),
      (getType v ≠ TypeTag.object →
        ensureType v (.struct S) n =
          .err ("The " ++ n ++ " must be " ++ describeTag TypeTag.object true
            ++ ", but it was " ++ describeTag (getType v) true ++ ".")) ∧
      (getType v = TypeTag.object →
        ensureType v (.struct S) n = structSpecFields v S n) := by
  intro v S n
  constructor
  · intro h
    simp [ensureType, checkType, checkPrim, PrimType.toTag, h]
  · intro h
    simp [ensureType, checkType, checkPrim, PrimType.toTag, h,
      checkFields_eq_structSpecFields]

/-- Witness for C5: an object input follows the spec's struct rule, and a
non-object input gets the object-type message. -/
theorem struct_check_matches_spec_witness :
    getType (.object [(("a"), .string ("John"))]) = TypeTag.object ∧
    ensureType (.object [(("a"), .string ("John"))]) (.struct [(("a"), .prim .string)]) ("value")
      = structSpecFields (.object [(("a"), .string ("John"))]) [(("a"), .prim .string)] ("value") :=
  ⟨rfl, (struct_check_matches_spec (.object [(("a"), .string ("John"))])
      [(("a"), .prim .string)] ("value")).2 rfl⟩

/-! ## Claim C7: ensureItemType -/

/-- The item loop of `ensureItemType` coincides with the spec's
transcription of the array-item rule. -/
theorem ensureItems_eq_itemsSpec :
    ∀ (items : List JSValue) (d : Descriptor) (n : String) (i : Nat),
      ensureItems items d n i = itemsSpec items d n i := by
  intro items d n
  induction items with
  | nil => intro i; rfl
  | cons item rest ih =>
      intro i
      cases h : checkType item d (n ++ "." ++ toString i) with
      | ok c => simp only [ensureItems, itemsSpec, h, ih]
      | err e => simp only [ensureItems, itemsSpec, h]
      | crash => simp only [ensureItems, itemsSpec, h]

/-- Claim C7: `ensureItemType` first fails with the array-type message
when the argument's tag is not array; otherwise it checks every element
under the per-element name `{name}.{index}`, rewriting elements in place,
aborting at the first failing element with its own message (the
spec-transcribed `itemsSpec`); the examples show the failure naming index
1 and the success returning the array with the same content. -/
theorem ensureItemType_characterization :
    ∀ (a : JSValue) (d : Descriptor) (n : String),
      (getType a ≠ TypeTag.array →
        ensureItemType a d n =
          .err ("The " ++ n ++ " must be " ++ describeTag TypeTag.array true
            ++ ", but it was " ++ describeTag (getType a) true ++ ".")) ∧
      (∀ items, a = .array items → ensureItemType a d n = itemsSpec items d n 0) ∧
      ensureItemType (.array [.string ("John"), .number 123]) (.prim .string)
        = .err ("The value.1 must be a string, but it was a number.") ∧
      ensureItemType (.array [.string ("John"), .string ("Jane")]) (.prim .string)
        = .ok (.array [.string ("John"), .string ("Jane")]) := by
  intro a d n
  refine ⟨?_, ?_, rfl, rfl⟩
  · intro h
    simp [ensureItemType, checkType, checkPrim, PrimType.toTag, h]
  · rintro items rfl
    simp [ensureItemType, checkType, checkPrim, PrimType.toTag, getType,
      ensureItems_eq_itemsSpec]

/-- Witness for C7: both hypotheses discharged at concrete inputs. -/
theorem ensureItemType_characterization_witness :
    getType (.string ("x")) ≠ TypeTag.array ∧
    ensureItemType (.string ("x")) (.prim .string) ("value")
      = .err ("The value must be an array, but it was a string.") ∧
    ensureItemType (.array [.string ("John")]) (.prim .string) ("value")
      = itemsSpec [.string ("John")] (.prim .string) ("value") 0 :=
  ⟨by decide,
    (ensureItemType_characterization (.string ("x")) (.prim .string) ("value")).1 (by decide),
    (ensureItemType_characterization (.array [.string ("John")]) (.prim .string) ("value")).2.1
      [.string ("John")] rfl⟩

/-! ## Claim C4: coercible-constructor descriptors -/

/-- Claim C4: for a coercible-constructor descriptor, an instance is
returned as-is; otherwise a new instance is constructed from the raw
value and accepted unless its string form begins with the
case-insensitive prefix "invalid", in which case the message is
"The {name} must be a valid {TypeName}, but it was {a/an tag}" followed
by ": {JSON of v}" exactly when the tag is neither null nor undefined,
then ".".  The closed conjuncts are the spec's `Date` examples: `null`
yields the epoch date, `'no-date'` fails with a message containing the
raw value, and the parseable string round-trips. -/
theorem ctor_check_characterization :
    ∀ (c : CtorSpec) (v : JSValue) (n : String),
      (c.isInstance v = true → ensureType v (.ctor c) n = .ok v) ∧
      (c.isInstance v = false →
        strStartsWith (jsToLowerCase (jsToString (c.construct v))) ("invalid") = false →
        ensureType v (.ctor c) n = .ok (c.construct v)) ∧
      (c.isInstance v = false →
        strStartsWith (jsToLowerCase (jsToString (c.construct v))) ("invalid") = true →
        ensureType v (.ctor c) n =
          .err ("The " ++ n ++ " must be a valid " ++ c.name ++ ", but it was "
            ++ describeTag (getType v) true
            ++ (if getType v = TypeTag.null ∨ getType v = TypeTag.undef then ""
                else ": " ++ jsonStringify v)
            ++ ".")) ∧
      ensureType .null (.ctor dateCtor) = .ok epochDate ∧
      ensureType (.string ("no-date")) (.ctor dateCtor)
        = .err ("The value must be a valid Date, but it was a string: \"no-date\".") ∧
      ensureType (.string ("2024-08-23T20:01")) (.ctor dateCtor)
        = .ok (dateConstruct (.string ("2024-08-23T20:01"))) := by
  intro c v n
  refine ⟨?_, ?_, ?_, rfl, rfl, rfl⟩
  · intro h; simp [ensureType, checkType, checkCtor, h]
  · intro h1 h2; simp [ensureType, checkType, checkCtor, h1, h2]
  · intro h1 h2; simp [ensureType, checkType, checkCtor, h1, h2]

/-- Witness for C4 at `Date` and `'no-date'`. -/
theorem ctor_check_characterization_witness :
    dateCtor.isInstance (.string ("no-date")) = false ∧
    strStartsWith (jsToLowerCase (jsToString (dateCtor.construct (.string ("no-date"))))) ("invalid") = true ∧
    ensureType (.string ("no-date")) (.ctor dateCtor) ("value")
      = .err ("The value must be a valid Date, but it was a string: \"no-date\".") :=
  ⟨rfl, rfl,
    (ctor_check_characterization dateCtor (.string ("no-date")) ("value")).2.2.1 rfl rfl⟩

/-! ## Claim C10: unions return the original value -/

/-- A successful union loop always yields the original value, unless a
member check crashed. -/
theorem tryUnionMembers_some_shape :
    ∀ (ms : List Descriptor) (v : JSValue) (n : String) (r : CheckResult),
      tryUnionMembers v ms n = some r → r = .ok v ∨ r = .crash := by
  intro ms v n
  induction ms with
  | nil => intro r h; cases h
  | cons m rest ih =>
      intro r h
      cases hm : checkType v m n with
      | ok w =>
          simp only [tryUnionMembers, hm, Option.some.injEq] at h
          exact Or.inl h.symm
      | crash =>
          simp only [tryUnionMembers, hm, Option.some.injEq] at h
          exact Or.inr h.symm
      | err e =>
          simp only [tryUnionMembers, hm] at h
          exact ih r h

/-- Claim C10: whenever a union check succeeds it returns the original
argument itself, discarding any coerced member result; the closed
conjuncts show a date string surviving the union `[Date]` unchanged even
though the bare `Date` descriptor coerces it to a date instance. -/
theorem union_returns_original :
    ∀ (members : List Descriptor) (v : JSValue) (n : String) (w : JSValue),
      (ensureType v (.union members) n = .ok w → w = v) ∧
      ensureType (.string ("2024-08-23T20:01")) (.union [.ctor dateCtor])
        = .ok (.string ("2024-08-23T20:01")) ∧
      ensureType (.string ("2024-08-23T20:01")) (.ctor dateCtor)
        = .ok (.inst ("Date") ("Fri Aug 23 2024 20:01:00")) := by
  intro members v n w
  refine ⟨?_, rfl, rfl⟩
  intro h
  unfold ensureType at h
  cases ht : tryUnionMembers v members n with
  | some r =>
      simp only [checkType, ht] at h
      rcases tryUnionMembers_some_shape members v n r ht with h1 | h1 <;> subst h1
      · exact (CheckResult.ok.injEq _ _ ▸ h).symm
      · exact CheckResult.noConfusion h
  | none =>
      simp only [checkType, ht] at h
      cases hd : describeDesc (.union members) true with
      | some d => simp only [hd] at h; exact CheckResult.noConfusion h
      | none => simp only [hd] at h; exact CheckResult.noConfusion h

/-- Witness for C10: the union `[Date]` succeeds on a date string and the
theorem yields that the returned value is the original string. -/
theorem union_returns_original_witness :
    ensureType (.string ("2024-08-23T20:01")) (.union [.ctor dateCtor]) ("value")
      = .ok (.string ("2024-08-23T20:01")) ∧
    (.string ("2024-08-23T20:01") : JSValue) = .string ("2024-08-23T20:01") :=
  ⟨rfl, (union_returns_original [.ctor dateCtor] (.string ("2024-08-23T20:01")) ("value")
      (.string ("2024-08-23T20:01"))).1 rfl⟩

/-! ## Claim C8: ensureArguments -/

/-- If every descriptor's check succeeds (missing arguments reading as
`undefined`), the argument loop succeeds. -/
theorem checkArguments_ok_of_all :
    ∀ (ts : List Descriptor) (args : List JSValue) (names : List String) (base : Nat),
      (∀ k, k < ts.length →
        ∃ w, checkType (args.getD (base + k) .undef) (ts.getD k (.prim .undef))
          (argumentName names (base + k)) = .ok w) →
      checkArguments args ts names base = .ok .undef := by
  intro ts
  induction ts with
  | nil => intro args names base _; rfl
  | cons t rest ih =>
      intro args names base h
      obtain ⟨w, hw⟩ := h 0 (by simp)
      simp only [List.getD_cons_zero, Nat.add_zero] at hw
      simp only [checkArguments, hw]
      apply ih
      intro k hk
      have hs := h (k + 1) (by simpa using Nat.succ_lt_succ hk)
      have he : base + (k + 1) = (base + 1) + k := by omega
      rw [he, List.getD_cons_succ] at hs
      exact hs

/-- The argument loop stops at the first failing argument and propagates
that argument's result. -/
theorem checkArguments_err_at :
    ∀ (ts : List Descriptor) (args : List JSValue) (names : List String) (base : Nat) (j : Nat),
      j < ts.length →
      (∀ k, k < j →
        ∃ w, checkType (args.getD (base + k) .undef) (ts.getD k (.prim .undef))
          (argumentName names (base + k)) = .ok w) →
      (∃ e, checkType (args.getD (base + j) .undef) (ts.getD j (.prim .undef))
          (argumentName names (base + j)) = .err e) →
      checkArguments args ts names base =
        checkType (args.getD (base + j) .undef) (ts.getD j (.prim .undef))
          (argumentName names (base + j)) := by
  intro ts
  induction ts with
  | nil => intro args names base j hj; exact absurd hj (by simp)
  | cons t rest ih =>
      intro args names base j hj hprev herr
      cases j with
      | zero =>
          obtain ⟨e, he⟩ := herr
          simp only [List.getD_cons_zero, Nat.add_zero] at he ⊢
          simp only [checkArguments, he]
      | succ j =>
          obtain ⟨w, hw⟩ := hprev 0 (Nat.succ_pos j)
          simp only [List.getD_cons_zero, Nat.add_zero] at hw
          have hbase : base + (j + 1) = (base + 1) + j := by omega
          rw [hbase, List.getD_cons_succ] at herr ⊢
          simp only [checkArguments, hw]
          apply ih args names (base + 1) j
            (by simp only [List.length_cons] at hj; omega) ?_ herr
          intro k hk
          have hs := hprev (k + 1) (Nat.succ_lt_succ hk)
          have he2 : base + (k + 1) = (base + 1) + k := by omega
          rw [he2, List.getD_cons_succ] at hs
          exact hs

/-- Claim C8: `ensureArguments` fails immediately with exactly
"Too many arguments: expected {N}, but got {M}." when there are more
arguments than descriptors; fewer arguments is not an error by itself —
missing trailing arguments are treated as `undefined` and checked against
their descriptor; argument display names come from `names` when truthy,
else "argument #{i+1}".  The closed conjuncts are the spec's examples,
plus the optional-argument behaviour for a descriptor that allows or
rejects `undefined`. -/
theorem ensureArguments_characterization :
    ∀ (args : List JSValue) (ts : List Descriptor) (names : List String),
      (args.length > ts.length →
        ensureArguments args ts names =
          .err ("Too many arguments: expected " ++ toString ts.length
            ++ ", but got " ++ toString args.length ++ ".")) ∧
      (args.length ≤ ts.length →
        (∀ k, k < ts.length →
          ∃ w, checkType (args.getD k .undef) (ts.getD k (.prim .undef))
            (argumentName names k) = .ok w) →
        ensureArguments args ts names = .ok .undef) ∧
      (args.length ≤ ts.length →
        ∀ j, j < ts.length →
        (∀ k, k < j →
          ∃ w, checkType (args.getD k .undef) (ts.getD k (.prim .undef))
            (argumentName names k) = .ok w) →
        (∃ e, checkType (args.getD j .undef) (ts.getD j (.prim .undef))
            (argumentName names j) = .err e) →
        ensureArguments args ts names =
          checkType (args.getD j .undef) (ts.getD j (.prim .undef)) (argumentName names j)) ∧
      ensureArguments [.string ("John")] [] []
        = .err ("Too many arguments: expected 0, but got 1.") ∧
      ensureArguments [.number 123, .number 456] [.prim .number, .prim .string] []
        = .err ("The argument #2 must be a string, but it was a number.") ∧
      ensureArguments [] [.prim .undef] [] = .ok .undef ∧
      ensureArguments [] [.prim .string] []
        = .err ("The argument #1 must be a string, but it was undefined.") := by
  intro args ts names
  refine ⟨?_, ?_, ?_, rfl, rfl, rfl, rfl⟩
  · intro h
    simp only [ensureArguments, if_pos h]
  · intro hle hall
    simp only [ensureArguments, if_neg (by omega : ¬args.length > ts.length)]
    apply checkArguments_ok_of_all
    intro k hk
    have := hall k hk
    rwa [Nat.zero_add]
  · intro hle j hj hprev herr
    simp only [ensureArguments, if_neg (by omega : ¬args.length > ts.length)]
    have := checkArguments_err_at ts args names 0 j hj ?_ ?_
    · rwa [Nat.zero_add] at this
    · intro k hk
      have := hprev k hk
      rwa [Nat.zero_add]
    · rwa [Nat.zero_add]

/-- Witness for C8: an optional argument (descriptor allowing
`undefined`) is satisfied by a missing trailing argument. -/
theorem ensureArguments_characterization_witness :
    ([] : List JSValue).length ≤ [Descriptor.prim .undef].length ∧
    ensureArguments [] [.prim .undef] [] = .ok .undef := by
  refine ⟨by decide, ?_⟩
  apply (ensureArguments_characterization [] [.prim .undef] []).2.1 (by decide)
  intro k hk
  have hk0 : k = 0 := by simpa using hk
  subst hk0
  exact ⟨.undef, rfl⟩

/-! ## Claim C2: union descriptors -/

/-- When every member fails, the union loop falls through. -/
theorem tryUnionMembers_none_of_allErr :
    ∀ (ms : List Descriptor) (v : JSValue) (n : String),
      (∀ m ∈ ms, ∃ e, checkType v m n = .err e) →
      tryUnionMembers v ms n = none := by
  intro ms v n
  induction ms with
  | nil => intro _; rfl
  | cons m rest ih =>
      intro h
      obtain ⟨e, he⟩ := h m (by simp)
      simp only [tryUnionMembers, he]
      exact ih (fun m2 hm2 => h m2 (by simp [hm2]))

/-- The union loop returns the original value at the first succeeding
member, after any failing ones. -/
theorem tryUnionMembers_firstOk :
    ∀ (pre : List Descriptor) (m : Descriptor) (post : List Descriptor) (v : JSValue) (n : String),
      (∀ m2 ∈ pre, ∃ e, checkType v m2 n = .err e) →
      (∃ w, checkType v m n = .ok w) →
      tryUnionMembers v (pre ++ m :: post) n = some (.ok v) := by
  intro pre
  induction pre with
  | nil =>
      intro m post v n _ hok
      obtain ⟨w, hw⟩ := hok
      simp only [List.nil_append, tryUnionMembers, hw]
  | cons p rest ih =>
      intro m post v n hpre hok
      obtain ⟨e, he⟩ := hpre p (by simp)
      simp only [List.cons_append, tryUnionMembers, he]
      exact ih m post v n (fun m2 hm2 => hpre m2 (by simp [hm2])) hok

/-- Amended claim C2: a union tries each member left-to-right with the
same name and returns the first success; when every member fails *and the
members are describable* (no struct member, whose description is
undefined — see the counterexample), the error message joins the member
descriptions: "The {name} must be {joined descriptions}, but it was
{a/an tag}.".  The closed conjunct is the spec's example. -/
theorem union_check_characterization :
    ∀ (members : List Descriptor) (v : JSValue) (n : String) (ds : List String),
      ((∀ m ∈ members, ∃ e, checkType v m n = .err e) →
        describeMembers members true = some ds →
        ensureType v (.union members) n =
          .err ("The " ++ n ++ " must be " ++ joinDescriptions ds
            ++ ", but it was " ++ describeTag (getType v) true ++ ".")) ∧
      (∀ (pre : List Descriptor) (m : Descriptor) (post : List Descriptor),
        members = pre ++ m :: post →
        (∀ m2 ∈ pre, ∃ e, checkType v m2 n = .err e) →
        (∃ w, checkType v m n = .ok w) →
        ensureType v (.union members) n = .ok v) ∧
      ensureType (.boolean true) (.union [.prim .string, .prim .number])
        = .err ("The value must be a string or a number, but it was a boolean.") := by
  intro members v n ds
  refine ⟨?_, ?_, rfl⟩
  · intro hall hd
    have ht := tryUnionMembers_none_of_allErr members v n hall
    simp only [ensureType, checkType, ht, describeDesc, hd]
  · rintro pre m post rfl hpre hok
    have ht := tryUnionMembers_firstOk pre m post v n hpre hok
    simp only [ensureType, checkType, ht]

/-- Counterexample to C2 as stated: the single (struct) member of the
union fails, but the union check crashes with a `TypeError` while
synthesizing the combined message — it does not produce any validation
error message. -/
theorem union_struct_member_counterexample :
    (∃ e, checkType (.boolean true) (.struct [(("a"), .prim .string)]) ("value") = .err e) ∧
    ensureType (.boolean true) (.union [.struct [(("a"), .prim .string)]]) = .crash ∧
    ∀ s, ensureType (.boolean true) (.union [.struct [(("a"), .prim .string)]]) ≠ .err s := by
  have hc : ensureType (.boolean true) (.union [.struct [(("a"), .prim .string)]]) = .crash := rfl
  refine ⟨⟨("The value must be an object, but it was a boolean."), rfl⟩, hc, ?_⟩
  intro s h
  rw [hc] at h
  exact CheckResult.noConfusion h

/-- Witness for the amended C2, at the spec's example union. -/
theorem union_check_characterization_witness :
    describeMembers [.prim .string, .prim .number] true = some [("a string"), ("a number")] ∧
    ensureType (.boolean true) (.union [.prim .string, .prim .number]) ("value")
      = .err ("The value must be a string or a number, but it was a boolean.") := by
  refine ⟨rfl, ?_⟩
  apply (union_check_characterization [.prim .string, .prim .number] (.boolean true) ("value")
      [("a string"), ("a number")]).1 ?_ rfl
  intro m hm
  simp only [List.mem_cons, List.not_mem_nil, or_false] at hm
  rcases hm with rfl | rfl
  · exact ⟨_, rfl⟩
  · exact ⟨_, rfl⟩

/-! ## Claim C3: enumeration descriptors -/

/-- `find?` by name succeeds when some list member has the searched name,
and the found constant bears that name. -/
theorem find?_byName_of_mem :
    ∀ (l : List EnumConstant) (key : String), (∃ c ∈ l, c.name = key) →
      ∃ c2, l.find? (fun k => k.name == key) = some c2 ∧ c2.name = key := by
  intro l key
  induction l with
  | nil => rintro ⟨c, hc, _⟩; cases hc
  | cons a rest ih =>
      rintro ⟨c, hc, hname⟩
      by_cases ha : a.name = key
      · exact ⟨a, by rw [List.find?_cons_of_pos _ (by simp [ha])], ha⟩
      · have hcr : c ∈ rest := by
          rcases List.mem_cons.mp hc with rfl | h
          · exact absurd hname ha
          · exact h
        obtain ⟨c2, h1, h2⟩ := ih ⟨c, hcr, hname⟩
        refine ⟨c2, ?_, h2⟩
        rw [List.find?_cons_of_neg _ (by simpa using ha)]
        exact h1

/-- Amended claim C3: an enum check resolves the value by uppercasing its
string form and finding the first constant whose name equals it exactly
(`Enum.valueOf(String(value).toUpperCase())`); any failure yields
"The {name} must be {a/an EnumTypeName}, but it was {a/an tag}.".  For
enums whose constant names are all uppercase (the library's convention)
this subsumes identity matching of existing constants and
case-insensitive matching of the value's string form. -/
theorem enum_check_characterization :
    ∀ (e : EnumType) (v : JSValue) (n : String),
      (∀ c, e.constants.find? (fun k => k.name == jsToUpperCase (jsToString v)) = some c →
        ensureType v (.enum e) n = .ok (.enumConst e.name c.name c.ordinal)) ∧
      (e.constants.find? (fun k => k.name == jsToUpperCase (jsToString v)) = none →
        ensureType v (.enum e) n =
          .err ("The " ++ n ++ " must be " ++ withArticle e.name
            ++ ", but it was " ++ describeTag (getType v) true ++ ".")) ∧
      ((∀ c ∈ e.constants, jsToUpperCase c.name = c.name) →
        (e.constants.map EnumConstant.name).Nodup →
        ∀ (nm : String) (o : Int), EnumConstant.mk nm o ∈ e.constants →
          ensureType (.enumConst e.name nm o) (.enum e) n = .ok (.enumConst e.name nm o)) ∧
      ((∀ c ∈ e.constants, jsToUpperCase c.name = c.name) →
        (e.constants.map EnumConstant.name).Nodup →
        ∀ (s : String) (c : EnumConstant), c ∈ e.constants →
          jsToUpperCase s = jsToUpperCase c.name →
          ensureType (.string s) (.enum e) n = .ok (.enumConst e.name c.name c.ordinal)) := by
  intro e v n
  refine ⟨?_, ?_, ?_, ?_⟩
  · intro c hc
    simp only [ensureType, checkType, checkEnum, hc]
  · intro hc
    simp only [ensureType, checkType, checkEnum, hc]
  · intro hup hnd nm o hmem
    have hkey : jsToUpperCase (jsToString (JSValue.enumConst e.name nm o)) = nm :=
      hup ⟨nm, o⟩ hmem
    obtain ⟨c2, hfind, hname⟩ := find?_byName_of_mem e.constants
      (jsToUpperCase (jsToString (JSValue.enumConst e.name nm o)))
      ⟨⟨nm, o⟩, hmem, hkey.symm⟩
    have hceq : c2 = ⟨nm, o⟩ :=
      List.inj_on_of_nodup_map hnd (List.mem_of_find?_eq_some hfind) hmem
        (hname.trans hkey)
    subst hceq
    simp only [ensureType, checkType, checkEnum, hfind]
  · intro hup hnd s c hmem hs
    have hkey : jsToUpperCase (jsToString (JSValue.string s)) = c.name :=
      hs.trans (hup c hmem)
    obtain ⟨c2, hfind, hname⟩ := find?_byName_of_mem e.constants
      (jsToUpperCase (jsToString (JSValue.string s))) ⟨c, hmem, hkey.symm⟩
    have hceq : c2 = c :=
      List.inj_on_of_nodup_map hnd (List.mem_of_find?_eq_some hfind) hmem
        (hname.trans hkey)
    subst hceq
    simp only [ensureType, checkType, checkEnum, hfind]

/-- Counterexample to C3 as stated: the enum constant `Orientation.Ok`
(declared with the mixed-case name "Ok") is an existing constant, yet
checking it against its own enum fails — there is no identity match step,
only the uppercased-string name lookup.  The failure message also reads
"an Orientation", not "a Orientation": the article rule applies to the
enum type name. -/
theorem enum_identity_match_counterexample :
    (⟨("Ok"), 0⟩ : EnumConstant) ∈ orientationEnum.constants ∧
    checkType (.enumConst ("Orientation") ("Ok") 0) (.enum orientationEnum) ("value")
      = .err ("The value must be an Orientation, but it was an object.") ∧
    checkType (.enumConst ("Orientation") ("Ok") 0) (.enum orientationEnum) ("value")
      ≠ .ok (.enumConst ("Orientation") ("Ok") 0) ∧
    checkType (.enumConst ("Orientation") ("Ok") 0) (.enum orientationEnum) ("value")
      ≠ .err ("The value must be a Orientation, but it was an object.") := by
  have hc : checkType (.enumConst ("Orientation") ("Ok") 0) (.enum orientationEnum) ("value")
      = .err ("The value must be an Orientation, but it was an object.") := rfl
  refine ⟨by decide, hc, ?_, ?_⟩
  · intro h
    rw [hc] at h
    exact CheckResult.noConfusion h
  · intro h
    rw [hc] at h
    injection h with h2
    exact absurd h2 (by decide)

/-- Witness for the amended C3: case-insensitive lookup on the spec's
`YesNo` enum maps `'no'` to `YesNo.NO`. -/
theorem enum_check_characterization_witness :
    (∀ c ∈ yesNoEnum.constants, jsToUpperCase c.name = c.name) ∧
    (yesNoEnum.constants.map EnumConstant.name).Nodup ∧
    ensureType (.string ("no")) (.enum yesNoEnum) ("value")
      = .ok (.enumConst ("YesNo") ("NO") 1) := by
  refine ⟨by decide, by decide, ?_⟩
  exact (enum_check_characterization yesNoEnum (.string ("no")) ("value")).2.2.2
    (by decide) (by decide) ("no") ⟨("NO"), 1⟩ (by decide) (by decide)

/-! ## Claim C6: struct checking is idempotent -/

/-- `Char.ofNat` round-trips on valid codepoints. -/
theorem toNat_ofNat_valid (m : Nat) (h : m.isValidChar) : (Char.ofNat m).toNat = m := by
  rw [Char.ofNat, dif_pos h]
  simp [Char.ofNatAux, Char.toNat, UInt32.toNat]

/-- Upper-casing a character is idempotent. -/
theorem jsUpperChar_idem (c : Char) : jsUpperChar (jsUpperChar c) = jsUpperChar c := by
  unfold jsUpperChar
  by_cases h : 97 ≤ c.toNat ∧ c.toNat ≤ 122
  · rw [if_pos h]
    have hv : (c.toNat - 32).isValidChar := Or.inl (by omega)
    rw [if_neg]
    rw [toNat_ofNat_valid _ hv]
    omega
  · rw [if_neg h, if_neg h]

/-- Upper-casing a string is idempotent (as `toUpperCase` is in
JavaScript). -/
theorem jsToUpperCase_idem (s : String) : jsToUpperCase (jsToUpperCase s) = jsToUpperCase s := by
  unfold jsToUpperCase
  simp [List.map_map, Function.comp_def, jsUpperChar_idem]

/-- Unfolding `setEntry` at a matching head. -/
theorem setEntry_cons_self (k1 : String) (v1 : JSValue) (rest : List (String × JSValue))
    (k : String) (x : JSValue) (h : k1 = k) :
    setEntry ((k1, v1) :: rest) k x = (k, x) :: rest := by
  simp [setEntry, h]

/-- Unfolding `setEntry` at a non-matching head. -/
theorem setEntry_cons_ne (k1 : String) (v1 : JSValue) (rest : List (String × JSValue))
    (k : String) (x : JSValue) (h : k1 ≠ k) :
    setEntry ((k1, v1) :: rest) k x = (k1, v1) :: setEntry rest k x := by
  simp [setEntry, h]

/-- Unfolding a key search at a cons cell. -/
theorem find?_cons_key (k1 : String) (y : JSValue) (rest : List (String × JSValue)) (k : String) :
    ((k1, y) :: rest).find? (fun p => p.1 == k)
      = if k1 = k then some (k1, y) else rest.find? (fun p => p.1 == k) := by
  by_cases h : k1 = k
  · rw [if_pos h]
    exact List.find?_cons_of_pos _ (by simp [h])
  · rw [if_neg h]
    exact List.find?_cons_of_neg _ (by simp [h])

/-- After a property write, reading the same key yields the written
value. -/
theorem find?_setEntry_self :
    ∀ (fs : List (String × JSValue)) (k : String) (x : JSValue),
      (setEntry fs k x).find? (fun p => p.1 == k) = some (k, x) := by
  intro fs k x
  induction fs with
  | nil => simp [setEntry]
  | cons p rest ih =>
      obtain ⟨k1, v1⟩ := p
      by_cases h : k1 = k
      · rw [setEntry_cons_self k1 v1 rest k x h, find?_cons_key, if_pos rfl]
      · rw [setEntry_cons_ne k1 v1 rest k x h, find?_cons_key, if_neg h]
        exact ih

/-- A property write to a different key does not change what a key
reads. -/
theorem find?_setEntry_ne :
    ∀ (fs : List (String × JSValue)) (k2 : String) (x : JSValue) (k : String),
      k2 ≠ k →
      (setEntry fs k2 x).find? (fun p => p.1 == k) = fs.find? (fun p => p.1 == k) := by
  intro fs k2 x k hne
  induction fs with
  | nil => simp [setEntry, find?_cons_key, if_neg hne]
  | cons p rest ih =>
      obtain ⟨k1, v1⟩ := p
      by_cases h : k1 = k2
      · subst h
        rw [setEntry_cons_self k1 v1 rest k1 x rfl]
        rw [find?_cons_key, find?_cons_key, if_neg hne, if_neg hne]
      · rw [setEntry_cons_ne k1 v1 rest k2 x h, find?_cons_key, find?_cons_key]
        by_cases h2 : k1 = k
        · rw [if_pos h2, if_pos h2]
        · rw [if_neg h2, if_neg h2]
          exact ih

/-- Writing back the value a key already holds is a no-op. -/
theorem setEntry_of_find?_self :
    ∀ (fs : List (String × JSValue)) (k : String) (x : JSValue),
      fs.find? (fun p => p.1 == k) = some (k, x) → setEntry fs k x = fs := by
  intro fs k x
  induction fs with
  | nil => intro h; cases h
  | cons p rest ih =>
      obtain ⟨k1, v1⟩ := p
      intro h
      by_cases hk : k1 = k
      · subst hk
        rw [find?_cons_key, if_pos rfl] at h
        simp only [Option.some.injEq, Prod.mk.injEq] at h
        obtain ⟨-, hv⟩ := h
        subst hv
        exact setEntry_cons_self k1 v1 rest k1 v1 rfl
      · rw [find?_cons_key, if_neg hk] at h
        rw [setEntry_cons_ne k1 v1 rest k x hk, ih h]

/-- A property write preserves the runtime type tag. -/
theorem getType_setField (v : JSValue) (k : String) (x : JSValue) :
    getType (v.setField k x) = getType v := by
  cases v <;> rfl

/-- A property write preserves plain-objectness. -/
theorem isObjVariant_setField (v : JSValue) (k : String) (x : JSValue) :
    isObjVariant (v.setField k x) = isObjVariant v := by
  cases v <;> rfl

/-- Writes to non-plain-objects are dropped by the model. -/
theorem setField_nonObj (v : JSValue) (k : String) (x : JSValue)
    (h : isObjVariant v = false) : v.setField k x = v := by
  cases v <;> first | rfl | exact absurd h (by simp [isObjVariant])

/-- Reading a key just written on a plain object yields the written
value. -/
theorem getField_setField_self (v : JSValue) (k : String) (x : JSValue)
    (h : isObjVariant v = true) : (v.setField k x).getField k = x := by
  cases v
  case object fs => simp only [JSValue.setField, JSValue.getField, find?_setEntry_self]
  all_goals exact absurd h (by simp [isObjVariant])

/-- Writing one key does not change another key's value. -/
theorem getField_setField_ne (v : JSValue) (k2 : String) (x : JSValue) (k : String)
    (hne : k2 ≠ k) : (v.setField k2 x).getField k = v.getField k := by
  cases v
  case object fs =>
    simp only [JSValue.setField, JSValue.getField, find?_setEntry_ne fs k2 x k hne]
  all_goals rfl

/-- A write makes the key present on a plain object. -/
theorem hasEntry_setField_self (v : JSValue) (k : String) (x : JSValue)
    (h : isObjVariant v = true) : hasEntry (v.setField k x) k = true := by
  cases v
  case object fs =>
    have hf := find?_setEntry_self fs k x
    have hm := List.mem_of_find?_eq_some hf
    have hp := List.find?_some hf
    simp only [JSValue.setField, hasEntry]
    exact List.any_eq_true.mpr ⟨_, hm, hp⟩
  all_goals exact absurd h (by simp [isObjVariant])

/-- Writing one key does not change another key's presence (list
level). -/
theorem any_setEntry_ne :
    ∀ (fs : List (String × JSValue)) (k2 : String) (x : JSValue) (k : String), k2 ≠ k →
      (setEntry fs k2 x).any (fun p => p.1 == k) = fs.any (fun p => p.1 == k) := by
  intro fs k2 x k hne
  induction fs with
  | nil => simp [setEntry, hne]
  | cons p rest ih =>
      obtain ⟨k1, v1⟩ := p
      by_cases h : k1 = k2
      · subst h
        rw [setEntry_cons_self k1 v1 rest k1 x rfl]
        simp [List.any_cons]
      · rw [setEntry_cons_ne k1 v1 rest k2 x h]
        simp only [List.any_cons, ih]

/-- Writing one key does not change another key's presence (value
level). -/
theorem hasEntry_setField_ne (v : JSValue) (k2 : String) (x : JSValue) (k : String)
    (hne : k2 ≠ k) : hasEntry (v.setField k2 x) k = hasEntry v k := by
  cases v
  case object fs => simp only [JSValue.setField, hasEntry, any_setEntry_ne fs k2 x k hne]
  all_goals rfl

/-- Writing back a present key's own value is a no-op. -/
theorem setField_of_present (v : JSValue) (k : String)
    (h : hasEntry v k = true) : v.setField k (v.getField k) = v := by
  cases v
  case object fs =>
    simp only [hasEntry] at h
    obtain ⟨p0, hp0mem, hp0⟩ := List.any_eq_true.mp h
    have hsome : (fs.find? (fun p => p.1 == k)).isSome :=
      List.find?_isSome.mpr ⟨p0, hp0mem, hp0⟩
    obtain ⟨q, hq⟩ := Option.isSome_iff_exists.mp hsome
    have hq1 : q.1 = k := by simpa using List.find?_some hq
    have hqe : q = (k, q.2) := Prod.ext hq1 rfl
    rw [hqe] at hq
    simp only [JSValue.getField, JSValue.setField, hq]
    rw [setEntry_of_find?_self fs k q.2 hq]
  all_goals rfl

/-- The primitive check succeeds exactly on a tag match, returning the
value unchanged. -/
theorem checkPrim_ok_iff (v : JSValue) (t : PrimType) (n : String) (w : JSValue) :
    checkPrim v t n = .ok w ↔ (getType v = t.toTag ∧ w = v) := by
  unfold checkPrim
  split
  · next hg =>
      constructor
      · intro h; injection h with h2; exact ⟨hg, h2.symm⟩
      · rintro ⟨-, rfl⟩; rfl
  · next hg =>
      constructor
      · intro h; exact CheckResult.noConfusion h
      · rintro ⟨hg2, -⟩; exact absurd hg2 hg

/-- The primitive check never crashes. -/
theorem checkPrim_not_crash (v : JSValue) (t : PrimType) (n : String) :
    checkPrim v t n ≠ .crash := by
  unfold checkPrim
  split <;> intro h <;> exact CheckResult.noConfusion h

/-- A successful struct loop preserves the tag and plain-objectness of
the value being rewritten. -/
theorem checkFields_ok_preserve :
    ∀ (fields : List (String × Descriptor)) (u : JSValue) (n : String) (w : JSValue),
      checkFields u fields n = .ok w →
      getType w = getType u ∧ isObjVariant w = isObjVariant u := by
  intro fields
  induction fields with
  | nil =>
      intro u n w h
      simp only [checkFields] at h
      injection h with h2
      subst h2
      exact ⟨rfl, rfl⟩
  | cons p rest ih =>
      intro u n w h
      obtain ⟨key, d⟩ := p
      cases hc : checkType (u.getField key) d (n ++ "." ++ key) with
      | ok c =>
          simp only [checkFields, hc] at h
          have hrec := ih _ _ _ h
          exact ⟨hrec.1.trans (getType_setField u key c),
            hrec.2.trans (isObjVariant_setField u key c)⟩
      | err e =>
          simp only [checkFields, hc] at h
          exact CheckResult.noConfusion h
      | crash =>
          simp only [checkFields, hc] at h
          exact CheckResult.noConfusion h

/-- A successful struct loop over fields avoiding a key leaves that key's
value and presence unchanged. -/
theorem checkFields_ok_preserve_key :
    ∀ (fields : List (String × Descriptor)) (u : JSValue) (n : String) (w : JSValue) (k : String),
      checkFields u fields n = .ok w →
      (∀ p ∈ fields, p.1 ≠ k) →
      w.getField k = u.getField k ∧ hasEntry w k = hasEntry u k := by
  intro fields
  induction fields with
  | nil =>
      intro u n w k h _
      simp only [checkFields] at h
      injection h with h2
      subst h2
      exact ⟨rfl, rfl⟩
  | cons p rest ih =>
      intro u n w k h hne
      obtain ⟨key, d⟩ := p
      cases hc : checkType (u.getField key) d (n ++ "." ++ key) with
      | ok c =>
          simp only [checkFields, hc] at h
          have hkey : key ≠ k := hne (key, d) (by simp)
          have hrec := ih (u.setField key c) n w k h (fun p2 hp2 => hne p2 (by simp [hp2]))
          constructor
          · rw [hrec.1, getField_setField_ne u key c k hkey]
          · rw [hrec.2, hasEntry_setField_ne u key c k hkey]
      | err e =>
          simp only [checkFields, hc] at h
          exact CheckResult.noConfusion h
      | crash =>
          simp only [checkFields, hc] at h
          exact CheckResult.noConfusion h

/-- On a non-plain-object of tag object (an enum constant or class
instance), the struct loop returns the value unchanged. -/
theorem checkFields_nonObj :
    ∀ (fields : List (String × Descriptor)) (u : JSValue) (n : String) (w : JSValue),
      isObjVariant u = false →
      checkFields u fields n = .ok w → w = u := by
  intro fields
  induction fields with
  | nil =>
      intro u n w _ h
      simp only [checkFields] at h
      injection h with h2
      exact h2.symm
  | cons p rest ih =>
      intro u n w hobj h
      obtain ⟨key, d⟩ := p
      cases hc : checkType (u.getField key) d (n ++ "." ++ key) with
      | ok c =>
          simp only [checkFields, hc] at h
          rw [setField_nonObj u key c hobj] at h
          exact ih u n w hobj h
      | err e =>
          simp only [checkFields, hc] at h
          exact CheckResult.noConfusion h
      | crash =>
          simp only [checkFields, hc] at h
          exact CheckResult.noConfusion h

/-- The struct loop is idempotent on its own successful output, provided
the descriptor keys are distinct and each field descriptor's check is
idempotent. -/
theorem checkFields_idem :
    ∀ (fields : List (String × Descriptor)) (u : JSValue) (n : String) (w : JSValue),
      isObjVariant u = true →
      (fields.map Prod.fst).Nodup →
      (∀ p ∈ fields, ∀ (a : JSValue) (m : String) (b : JSValue),
        checkType a p.2 m = .ok b → checkType b p.2 m = .ok b) →
      checkFields u fields n = .ok w →
      checkFields w fields n = .ok w := by
  intro fields
  induction fields with
  | nil =>
      intro u n w _ _ _ _
      rfl
  | cons p rest ih =>
      intro u n w hobj hnd hidem h
      obtain ⟨key, d⟩ := p
      cases hc : checkType (u.getField key) d (n ++ "." ++ key) with
      | err e =>
          simp only [checkFields, hc] at h
          exact CheckResult.noConfusion h
      | crash =>
          simp only [checkFields, hc] at h
          exact CheckResult.noConfusion h
      | ok c =>
          simp only [checkFields, hc] at h
          have hobj2 : isObjVariant (u.setField key c) = true := by
            rw [isObjVariant_setField]; exact hobj
          have hnd1 : (key :: rest.map Prod.fst).Nodup := by
            simpa only [List.map_cons] using hnd
          have hnd2 := List.nodup_cons.mp hnd1
          have hknotin : ∀ p2 ∈ rest, p2.1 ≠ key := by
            intro p2 hp2 hk
            exact hnd2.1 (List.mem_map.mpr ⟨p2, hp2, hk⟩)
          have hpres := checkFields_ok_preserve_key rest (u.setField key c) n w key h hknotin
          have hwk : w.getField key = c := by
            rw [hpres.1, getField_setField_self u key c hobj]
          have hask : hasEntry w key = true := by
            rw [hpres.2]
            exact hasEntry_setField_self u key c hobj
          have hc2 : checkType (w.getField key) d (n ++ "." ++ key) = .ok c := by
            rw [hwk]
            exact hidem (key, d) (by simp) (u.getField key) (n ++ "." ++ key) c hc
          simp only [checkFields, hc2]
          have hsetw : w.setField key c = w := by
            have hnoop := setField_of_present w key hask
            rw [hwk] at hnoop
            exact hnoop
          rw [hsetw]
          exact ih (u.setField key c) n w hobj2 hnd2.2
            (fun p2 hp2 => hidem p2 (by simp [hp2])) h

/-- A successful union check returns the original value (helper shared
with the idempotence proof). -/
theorem checkType_union_ok_eq :
    ∀ (ms : List Descriptor) (v : JSValue) (n : String) (w : JSValue),
      checkType v (.union ms) n = .ok w → w = v := by
  intro ms v n w h
  cases ht : tryUnionMembers v ms n with
  | some r =>
      simp only [checkType, ht] at h
      rcases tryUnionMembers_some_shape ms v n r ht with h1 | h1 <;> subst h1
      · injection h with h2; exact h2.symm
      · exact CheckResult.noConfusion h
  | none =>
      simp only [checkType, ht] at h
      cases hd : describeDesc (.union ms) true with
      | some d => simp only [hd] at h; exact CheckResult.noConfusion h
      | none => simp only [hd] at h; exact CheckResult.noConfusion h

/-- `checkType` is idempotent on its own successful output, for
well-formed descriptors. -/
theorem checkType_idem :
    ∀ (d : Descriptor), Descriptor.WF d →
      ∀ (v : JSValue) (n : String) (w : JSValue),
        checkType v d n = .ok w → checkType w d n = .ok w := by
  intro d hwf
  induction hwf with
  | prim t =>
      intro v n w h
      simp only [checkType] at h ⊢
      obtain ⟨hg, hw⟩ := (checkPrim_ok_iff v t n w).mp h
      subst hw
      exact (checkPrim_ok_iff _ t n _).mpr ⟨hg, rfl⟩
  | enum e =>
      intro v n w h
      simp only [checkType, checkEnum] at h ⊢
      cases hf : e.constants.find? (fun c => c.name == jsToUpperCase (jsToString v)) with
      | none =>
          rw [hf] at h
          exact CheckResult.noConfusion h
      | some c =>
          rw [hf] at h
          injection h with h2
          subst h2
          have hcname : c.name = jsToUpperCase (jsToString v) := by
            simpa using List.find?_some hf
          have hkey2 : jsToUpperCase (jsToString (JSValue.enumConst e.name c.name c.ordinal))
              = c.name := by
            show jsToUpperCase c.name = c.name
            rw [hcname]
            exact jsToUpperCase_idem _
          rw [hkey2]
          rw [← hcname] at hf
          simp only [hf]
  | ctor c hc =>
      intro v n w h
      simp only [checkType, checkCtor] at h ⊢
      by_cases hi : c.isInstance v = true
      · rw [if_pos hi] at h
        injection h with h2
        subst h2
        rw [if_pos hi]
      · rw [if_neg hi] at h
        by_cases hs : strStartsWith (jsToLowerCase (jsToString (c.construct v))) ("invalid") = true
        · rw [if_pos hs] at h
          exact CheckResult.noConfusion h
        · rw [if_neg hs] at h
          injection h with h2
          subst h2
          rw [if_pos (hc v)]
  | union ms =>
      intro v n w h
      have hw : w = v := checkType_union_ok_eq ms v n w h
      subst hw
      exact h
  | struct fields hnd hf ih =>
      intro v n w h
      cases hcp : checkPrim v .object n with
      | err e =>
          simp only [checkType, hcp] at h
          exact CheckResult.noConfusion h
      | crash => exact absurd hcp (checkPrim_not_crash v .object n)
      | ok u2 =>
          have hio := (checkPrim_ok_iff v .object n u2).mp hcp
          simp only [checkType, hcp] at h
          have hgw : getType w = PrimType.object.toTag :=
            (checkFields_ok_preserve fields v n w h).1.trans hio.1
          have hcpw : checkPrim w .object n = .ok w :=
            (checkPrim_ok_iff w .object n w).mpr ⟨hgw, rfl⟩
          simp only [checkType, hcpw]
          by_cases hobj : isObjVariant v = true
          · exact checkFields_idem fields v n w hobj hnd (fun p hp => ih p hp) h
          · have hwv : w = v := checkFields_nonObj fields v n w (by simpa using hobj) h
            subst hwv
            exact h

/-- Claim C6: struct checking is idempotent on already-coerced input —
whenever `ensureType(x, S)` succeeds for a struct descriptor, applying
`ensureType` again to the result succeeds and yields the same result.
(The descriptor is well-formed: constructors produce their own instances
and struct field names are distinct, as JavaScript guarantees.) -/
theorem struct_check_idempotent :
    ∀ (S : List (String × Descriptor)) (x : JSValue) (n : String) (y : JSValue),
      Descriptor.WF (.struct S) →
      ensureType x (.struct S) n = .ok y →
      ensureType y (.struct S) n = .ok y := by
  intro S x n y hwf h
  exact checkType_idem (.struct S) hwf x n y h

/-- `Date`'s constructor always produces `Date` instances. -/
theorem dateCtor_wf : ∀ v, dateCtor.isInstance (dateCtor.construct v) = true := by
  intro v
  show dateCtor.isInstance (dateConstruct v) = true
  cases v <;> simp only [dateConstruct] <;> first | rfl | (split <;> rfl)

/-- Witness for C6: a struct with a `Date` field coerces a date string on
the first application and is fixed on the second. -/
theorem struct_check_idempotent_witness :
    Descriptor.WF (.struct [(("a"), .ctor dateCtor)]) ∧
    ensureType (.object [(("a"), .string ("2024-08-23T20:01"))])
        (.struct [(("a"), .ctor dateCtor)]) ("value")
      = .ok (.object [(("a"), .inst ("Date") ("Fri Aug 23 2024 20:01:00"))]) ∧
    ensureType (.object [(("a"), .inst ("Date") ("Fri Aug 23 2024 20:01:00"))])
        (.struct [(("a"), .ctor dateCtor)]) ("value")
      = .ok (.object [(("a"), .inst ("Date") ("Fri Aug 23 2024 20:01:00"))]) := by
  have hwf : Descriptor.WF (.struct [(("a"), .ctor dateCtor)]) := by
    refine Descriptor.WF.struct _ (by simp) ?_
    intro p hp
    have hp2 : p = (("a"), Descriptor.ctor dateCtor) := by simpa using hp
    rw [hp2]
    exact Descriptor.WF.ctor dateCtor dateCtor_wf
  exact ⟨hwf, rfl,
    struct_check_idempotent [(("a"), .ctor dateCtor)]
      (.object [(("a"), .string ("2024-08-23T20:01"))]) ("value")
      (.object [(("a"), .inst ("Date") ("Fri Aug 23 2024 20:01:00"))]) hwf rfl⟩
